import Mathlib

/-!
Shallow embedding of the section-routing and AMP-rendering pipeline of
`src/host.js` (Chrome Dev Summit site middleware).

JavaScript strings are modelled as Lean `String`, with string-primitive
operations (`startsWith`, `endsWith`, `lastIndexOf`, `slice`, `substr`,
indexing) implemented over the character list `String.toList`, mirroring
the JavaScript (UTF-16-code-point-free, character-level) semantics used by
the source.  Values looked up in the externally loaded schedule mapping are
modelled by `JsVal`, which carries JavaScript truthiness.  The two CSS cache
cells `prodAmpCss` / `fallbackProdAmpCss` are modelled as a `CssState` record
threaded explicitly through the dispatcher; the Less preprocessor is an
external deterministic collaborator whose output is passed in as a plain
string, and every call site that would invoke it reports the invocation in a
boolean component of its result.
-/

/-- Model of JavaScript `String.prototype.startsWith`. -/
def jsStartsWith (s p : String) : Bool :=
  p.toList.isPrefixOf s.toList

/-- Model of JavaScript `String.prototype.endsWith`. -/
def jsEndsWith (s p : String) : Bool :=
  p.toList.isSuffixOf s.toList

/-- Model of JavaScript `s[0]` character indexing: `none` plays the role of
`undefined` on the empty string. -/
def jsFirstChar (s : String) : Option Char :=
  s.toList.head?

/-- Model of JavaScript `s.slice(0, k)` / `s.substr(0, k)` for `0 ≤ k`:
the first `k` characters of `s`. -/
def jsTake (s : String) (k : Nat) : String :=
  String.mk (s.toList.take k)

/-- Predicate `occursAt o u i` holds when the string `u` occurs in the string `o`
starting at character position `i` (the characterisation of a substring
occurrence used by JavaScript `indexOf`/`lastIndexOf`). -/
def occursAt (o u : List Char) (i : Nat) : Bool :=
  u.isPrefixOf (o.drop i)

/-- Helper for `jsLastIndexOf`: the greatest position `≤ i` at which `u`
occurs in `o`, searching downward from `i`. -/
def lastIdxFrom (o u : List Char) : Nat → Option Nat
  | 0 => if occursAt o u 0 then some 0 else none
  | i + 1 => if occursAt o u (i + 1) then some (i + 1) else lastIdxFrom o u i

/-- Model of JavaScript `o.lastIndexOf(u)`: the greatest position at which
`u` occurs as a substring of `o` (positions range over `0 … o.length`),
`none` standing for the JavaScript result `-1`. -/
def jsLastIndexOf (o u : String) : Option Nat :=
  lastIdxFrom o.toList u.toList o.toList.length

/-- Function `mountUrl` from `src/host.js` (lines 105-114).  The Koa context is
replaced by its two fields read by the function: `ctx.originalUrl`
(possibly `undefined`, hence `Option`) and `ctx.url`. -/
def mountUrl (originalUrl : Option String) (url : String) : String :=
  match originalUrl with
  | none => ""
  | some o =>
    match jsLastIndexOf o url with
    | none => ""
    | some index => jsTake o index

/-- The startup section scan of `src/host.js` (lines 93-98), as a function
of the directory listing: `map` produces `some` stripped name for an entry
ending in `.html` whose first character is not `_` (and `none` for the
JavaScript `undefined` of the other entries), and `.filter(Boolean)` keeps
exactly the truthy results, dropping both `undefined` and the empty
string. -/
def sections (entries : List String) : List String :=
  (entries.map (fun s =>
      if jsEndsWith s ".html" && jsFirstChar s != some '_' then
        some (jsTake s (s.toList.length - 5))
      else none)).filterMap
    (fun v =>
      match v with
      | some t => if t = "" then none else some t
      | none => none)

/-- The section registry exactly as the specification sentence describes it,
for comparison with `sections`: every entry ending in `.html` whose first
character is not `_` contributes its stripped name. -/
def sectionsSpec (entries : List String) : List String :=
  entries.filterMap (fun s =>
    if jsEndsWith s ".html" && jsFirstChar s != some '_' then
      some (jsTake s (s.toList.length - 5))
    else none)

/-- The section registry as the specification sentence must be amended to
match the code: an entry additionally qualifies only when its stripped name
is nonempty (the directory entry named exactly `.html` is dropped by
`.filter(Boolean)`). -/
def sectionsAmended (entries : List String) : List String :=
  entries.filterMap (fun s =>
    if jsEndsWith s ".html" && jsFirstChar s != some '_' &&
        jsTake s (s.toList.length - 5) != "" then
      some (jsTake s (s.toList.length - 5))
    else none)

/-- The session records of `schedule.json`, restricted to the fields the
dispatcher reads (`name`, `time_label`, `description`); a missing field is
`none` (JavaScript `undefined`). -/
structure SessionRecord where
  name : Option String
  time_label : Option String
  description : Option String
deriving Repr, DecidableEq

/-- A JavaScript value as stored under a key of `schedule.sessions`:
`undef` doubles as the result of looking up an absent key. -/
inductive JsVal where
  | undef
  | nullv
  | boolv (b : Bool)
  | num (n : Int)
  | str (s : String)
  | obj (r : SessionRecord)
deriving Repr, DecidableEq

/-- JavaScript truthiness of a `JsVal`. -/
def JsVal.truthy : JsVal → Bool
  | .undef => false
  | .nullv => false
  | .boolv b => b
  | .num n => n != 0
  | .str s => s != ""
  | .obj _ => true

/-- JavaScript property read `v.name`: `none` is `undefined`. -/
def JsVal.nameProp : JsVal → Option String
  | .obj r => r.name
  | _ => none

/-- JavaScript property read `v.time_label`. -/
def JsVal.timeLabelProp : JsVal → Option String
  | .obj r => r.time_label
  | _ => none

/-- JavaScript property read `v.description`. -/
def JsVal.descriptionProp : JsVal → Option String
  | .obj r => r.description
  | _ => none

/-- Model of the JavaScript string default `x || ''` for a possibly absent
string-valued property. -/
def jsOrEmpty (v : Option String) : String :=
  match v with
  | some s => if s = "" then "" else s
  | none => ""

/-- The two CSS cache cells of `src/host.js` (lines 62-63): the eager
`prodAmpCss` (read from the precompiled artifact at startup in production)
and the lazy `fallbackProdAmpCss` (filled on first AMP request in
production). -/
structure CssState where
  prodAmpCss : Option String
  fallbackProdAmpCss : Option String
deriving Repr, DecidableEq

/-- Function `readProdAmpCss` from `src/host.js` (lines 53-61), as a function of the
outcome of the `fs.readFileSync` call: the `catch` swallows any error and
the function returns `undefined`. -/
def readProdAmpCss (readResult : Except String String) : Option String :=
  match readResult with
  | Except.ok contents => some contents
  | Except.error _ => none

/-- Startup initialisation of the cache cells (`src/host.js` lines 62-63):
`prodAmpCss = isProd ? readProdAmpCss() : undefined`, and the fallback cell
starts out `undefined`.  `artifact` is the result of `readProdAmpCss`. -/
def initState (isProd : Bool) (artifact : Option String) : CssState :=
  { prodAmpCss := if isProd then artifact else none
    fallbackProdAmpCss := none }

/-- The AMP CSS cache logic inlined in the dispatcher (`src/host.js` lines
148-159): use the eager cell, else the fallback cell, else invoke the Less
preprocessor (whose deterministic output is the parameter `lessCss`), and
persist the result into the fallback cell only in production.  The returned
boolean records whether the preprocessor was invoked. -/
def getAmpCss (isProd : Bool) (lessCss : String) (st : CssState) : String × CssState × Bool :=
  match st.prodAmpCss with
  | some css => (css, st, false)
  | none =>
    match st.fallbackProdAmpCss with
    | some css => (css, st, false)
    | none =>
      if isProd then
        (lessCss, { st with fallbackProdAmpCss := some lessCss }, true)
      else
        (lessCss, st, true)

/-- A sequence of `n` AMP-CSS lookups threading the cache state, returning
the final state and the number of preprocessor invocations. -/
def runAmpCalls (isProd : Bool) (lessCss : String) : Nat → CssState → CssState × Nat
  | 0, st => (st, 0)
  | n + 1, st =>
    let g := getAmpCss isProd lessCss st
    let r := runAmpCalls isProd lessCss n g.2.1
    (r.1, (if g.2.2 then 1 else 0) + r.2)

/-- The render context assembled by the dispatcher (`scope` in
`src/host.js`, lines 126-135 and 161-168).  The fields added only on the
AMP sub-route are `Option`s, `none` meaning the field is absent from the
plain-section context.  The source field names `sourcePrefix` and
`sitePrefix` appear here as `sourcePre` and `sitePre`. -/
structure Scope where
  year : Nat
  prod : Bool
  base : String
  layout : String
  ua : String
  conversion : Nat
  sourcePre : String
  days : List String
  sitePre : Option String := none
  title : Option String := none
  time_label : Option String := none
  description : Option String := none
  payload : Option JsVal := none
  styles : Option String := none
deriving Repr, DecidableEq

/-- The base render context of `src/host.js` lines 126-135. -/
def baseScope (isProd : Bool) (days : List String) (basepath : String) : Scope :=
  { year := 2018
    prod := isProd
    base := basepath
    layout := "devsummit"
    ua := "UA-41980257-1"
    conversion := 935743779
    sourcePre := if isProd then "res" else "src"
    days := days }

/-- The request data read by the dispatcher: the `path` / `rest` pair
produced by the flat router, the `Host` header, and the current and
original URLs used by `mountUrl`. -/
structure Request where
  path : String
  rest : Option String
  host : String
  url : String
  originalUrl : Option String
deriving Repr, DecidableEq

/-- Outcome of one dispatch: defer to the next middleware, or render the
named template with an assembled context. -/
inductive Outcome where
  | Deferred
  | Rendered (tmpl : String) (scope : Scope)
deriving Repr, DecidableEq

/-- JavaScript truthiness of the `rest` argument (`if (rest)`): both
`undefined` and the empty string are falsy. -/
def restVal (rest : Option String) : Option String :=
  match rest with
  | none => none
  | some r => if r = "" then none else some r

/-- The flat dispatcher closure of `src/host.js` (lines 116-174), with its
module-level environment made explicit: `isProd`, the section registry
`secs`, the sessions mapping of the schedule (total on strings, `JsVal.undef`
for absent keys), the precomputed `days`, and the deterministic Less output
`lessCss`.  Returns the outcome, the cache state after the request, and
whether the Less preprocessor was invoked. -/
def dispatch (isProd : Bool) (secs : List String) (sessions : String → JsVal)
    (days : List String) (lessCss : String) (st : CssState) (req : Request) :
    Outcome × CssState × Bool :=
  if !secs.contains req.path then (Outcome.Deferred, st, false)
  else
    let basepath := mountUrl req.originalUrl req.url
    let sitePre := (if isProd then "https://" else "http://") ++ req.host ++ basepath
    let scope := baseScope isProd days basepath
    match restVal req.rest with
    | some rest =>
      if req.path != "schedule" then (Outcome.Deferred, st, false)
      else
        let data := sessions rest
        if !data.truthy || jsStartsWith rest "_" then (Outcome.Deferred, st, false)
        else
          let g := getAmpCss isProd lessCss st
          let scope' := { scope with
            layout := "amp"
            sitePre := some sitePre
            title := some (jsOrEmpty data.nameProp)
            time_label := some (jsOrEmpty data.timeLabelProp)
            description := some (jsOrEmpty data.descriptionProp)
            payload := some data
            styles := some g.1 }
          (Outcome.Rendered "_amp-session" scope', g.2.1, g.2.2)
    | none => (Outcome.Rendered req.path scope, st, false)

theorem occursAt_length_le (o u : List Char) (j : Nat) (h : occursAt o u j = true) :
    u.length ≤ o.length - j := by
  unfold occursAt at h
  rw [ List.isPrefixOf_iff_prefix] at h
  have hl := h.length_le
  rwa [List.length_drop] at hl

theorem occursAt_le_length (o u : List Char) (j : Nat) (hu : u ≠ [])
    (h : occursAt o u j = true) : j ≤ o.length := by
  have hl := occursAt_length_le o u j h
  have hu' : 0 < u.length := List.length_pos.mpr hu
  omega

theorem lastIdxFrom_some (o u : List Char) (n i : Nat) (h : lastIdxFrom o u n = some i) :
    occursAt o u i = true ∧ i ≤ n ∧ ∀ j, j ≤ n → occursAt o u j = true → j ≤ i := by
  induction n with
  | zero =>
    by_cases h0 : occursAt o u 0 = true
    · simp [lastIdxFrom, h0] at h
      subst h
      exact ⟨h0, Nat.le_refl 0, fun j hj _ => hj⟩
    · simp [lastIdxFrom, h0] at h
  | succ n ih =>
    by_cases hs : occursAt o u (n + 1) = true
    · simp [lastIdxFrom, hs] at h
      subst h
      exact ⟨hs, Nat.le_refl _, fun j hj _ => hj⟩
    · simp only [lastIdxFrom, hs, if_false, Bool.false_eq_true] at h
      obtain ⟨h1, h2, h3⟩ := ih h
      refine ⟨h1, Nat.le_succ_of_le h2, fun j hj hocc => ?_⟩
      rcases Nat.lt_or_ge j (n + 1) with hlt | hge
      · exact h3 j (Nat.lt_succ_iff.mp hlt) hocc
      · have : j = n + 1 := Nat.le_antisymm hj hge
        subst this
        exact absurd hocc hs

theorem lastIdxFrom_none (o u : List Char) (n : Nat) (h : lastIdxFrom o u n = none) :
    ∀ j, j ≤ n → occursAt o u j = false := by
  induction n with
  | zero =>
    intro j hj
    interval_cases j
    by_cases h0 : occursAt o u 0 = true
    · simp [lastIdxFrom, h0] at h
    · simpa using h0
  | succ n ih =>
    by_cases hs : occursAt o u (n + 1) = true
    · simp [lastIdxFrom, hs] at h
    · simp only [lastIdxFrom, hs, if_false, Bool.false_eq_true] at h
      intro j hj
      rcases Nat.lt_or_ge j (n + 1) with hlt | hge
      · exact ih h j (Nat.lt_succ_iff.mp hlt)
      · have : j = n + 1 := Nat.le_antisymm hj hge
        subst this
        simpa using hs

theorem lastIdxFrom_eq_some (o u : List Char) (n i : Nat) (hi : i ≤ n)
    (hocc : occursAt o u i = true)
    (hmax : ∀ j, j ≤ n → occursAt o u j = true → j ≤ i) :
    lastIdxFrom o u n = some i := by
  cases h : lastIdxFrom o u n with
  | none =>
    have := lastIdxFrom_none o u n h i hi
    rw [hocc] at this
    exact absurd this (by simp)
  | some i' =>
    obtain ⟨h1, h2, h3⟩ := lastIdxFrom_some o u n i' h
    have ha := hmax i' h2 h1
    have hb := h3 i hi hocc
    rw [Nat.le_antisymm ha hb]

/-- C3: `mountUrl` returns the empty string when the original URL is
`undefined`; it returns the empty string when the current URL does not
occur as a substring of the original URL; otherwise it returns the prefix
of the original URL strictly before the last occurrence of the current URL
as a substring; in particular on original `/app/schedule/abc` with current
`/schedule/abc` it returns `/app`, and when both URLs are equal it returns
the empty string. -/
theorem mountUrl_some_eq (o u : String) :
    mountUrl (some o) u =
      match lastIdxFrom o.toList u.toList o.toList.length with
      | none => ""
      | some index => jsTake o index := rfl

theorem jsTake_zero (s : String) : jsTake s 0 = "" := by
  rw [jsTake, List.take_zero]

theorem mountUrl_spec :
    (∀ u : String, mountUrl none u = "") ∧
    (∀ o u : String, (∀ i, occursAt o.toList u.toList i = false) →
      mountUrl (some o) u = "") ∧
    (∀ (o u : String) (i : Nat), occursAt o.toList u.toList i = true →
      (∀ j, occursAt o.toList u.toList j = true → j ≤ i) →
      mountUrl (some o) u = jsTake o i) ∧
    mountUrl (some "/app/schedule/abc") "/schedule/abc" = "/app" ∧
    (∀ w : String, mountUrl (some w) w = "") := by
  refine ⟨fun u => rfl, ?_, ?_, by decide, ?_⟩
  · intro o u h
    rw [mountUrl_some_eq]
    cases hl : lastIdxFrom o.toList u.toList o.toList.length with
    | none => rfl
    | some i =>
      obtain ⟨h1, -, -⟩ := lastIdxFrom_some _ _ _ _ hl
      rw [h i] at h1
      exact absurd h1 (by simp)
  · intro o u i hocc hmax
    by_cases hu : u.toList = []
    · exfalso
      have hall : occursAt o.toList u.toList (i + 1) = true := by
        rw [occursAt, hu]
        rw [ List.isPrefixOf_iff_prefix]
        exact List.nil_prefix
      have := hmax (i + 1) hall
      omega
    · have hle := occursAt_le_length _ _ _ hu hocc
      have heq := lastIdxFrom_eq_some o.toList u.toList o.toList.length i hle hocc
        (fun j _ hocc' => hmax j hocc')
      rw [mountUrl_some_eq, heq]
  · intro w
    by_cases hw : w.toList = []
    · have h0 : occursAt w.toList w.toList 0 = true := by
        rw [occursAt, hw,  List.isPrefixOf_iff_prefix]
        exact List.nil_prefix
      have heq := lastIdxFrom_eq_some w.toList w.toList w.toList.length 0
        (Nat.zero_le _) h0 (fun j hj _ => by
          rw [hw] at hj
          simpa using hj)
      rw [mountUrl_some_eq, heq]
      exact jsTake_zero w
    · have h0 : occursAt w.toList w.toList 0 = true := by
        rw [occursAt, List.drop_zero, List.isPrefixOf_iff_prefix]
      have hpos : 0 < w.toList.length := List.length_pos.mpr hw
      have heq := lastIdxFrom_eq_some w.toList w.toList w.toList.length 0
        (Nat.zero_le _) h0 (fun j _ hocc' => by
          have := occursAt_length_le _ _ _ hocc'
          omega)
      rw [mountUrl_some_eq, heq]
      exact jsTake_zero w

theorem mountUrl_spec_witness :
    mountUrl (some "/app/schedule/abc") "/schedule/abc" = "/app" ∧
    mountUrl (some "/x/y") "/x/y" = "" ∧ mountUrl none "/x" = "" :=
  ⟨mountUrl_spec.2.2.2.1, mountUrl_spec.2.2.2.2 "/x/y", mountUrl_spec.1 "/x"⟩

theorem jsOrEmpty_eq_getD (v : Option String) : jsOrEmpty v = v.getD "" := by
  cases v with
  | none => rfl
  | some s => by_cases h : s = "" <;> simp [jsOrEmpty, h]

theorem dispatch_amp_eq (isProd : Bool) (secs : List String) (sessions : String → JsVal)
    (days : List String) (lessCss : String) (st : CssState) (req : Request)
    (id : String) (rec : SessionRecord)
    (hmem : secs.contains "schedule" = true) (hpath : req.path = "schedule")
    (hrest : req.rest = some id) (hne : id ≠ "")
    (hkey : sessions id = JsVal.obj rec) (hres : jsStartsWith id "_" = false) :
    dispatch isProd secs sessions days lessCss st req =
      (Outcome.Rendered "_amp-session"
        { baseScope isProd days (mountUrl req.originalUrl req.url) with
            layout := "amp"
            sitePre := some ((if isProd then "https://" else "http://") ++ req.host ++
              mountUrl req.originalUrl req.url)
            title := some (jsOrEmpty rec.name)
            time_label := some (jsOrEmpty rec.time_label)
            description := some (jsOrEmpty rec.description)
            payload := some (JsVal.obj rec)
            styles := some (getAmpCss isProd lessCss st).1 },
        (getAmpCss isProd lessCss st).2.1, (getAmpCss isProd lessCss st).2.2) := by
  have hmem' : secs.contains req.path = true := by rw [hpath]; exact hmem
  simp [dispatch, hmem', hpath, hrest, restVal, hne, hkey, hres, JsVal.truthy,
    JsVal.nameProp, JsVal.timeLabelProp, JsVal.descriptionProp]
  simpa using hmem

/-- C1: a request for `/schedule/<id>` whose identifier is a key of the
sessions mapping holding a session record and does not start with `_`
reaches the `Rendered` outcome: the layout field is `amp`, the rendered
template is `_amp-session`, and the context fields `title`, `time_label`
and `description` are taken from the record, defaulting to the empty
string when the record omits the field. -/
theorem schedule_session_rendered (isProd : Bool) (secs : List String)
    (sessions : String → JsVal) (days : List String) (lessCss : String)
    (st : CssState) (req : Request) (id : String) (rec : SessionRecord)
    (hmem : secs.contains "schedule" = true) (hpath : req.path = "schedule")
    (hrest : req.rest = some id) (hne : id ≠ "")
    (hkey : sessions id = JsVal.obj rec) (hres : jsStartsWith id "_" = false) :
    dispatch isProd secs sessions days lessCss st req =
      (Outcome.Rendered "_amp-session"
        { baseScope isProd days (mountUrl req.originalUrl req.url) with
            layout := "amp"
            sitePre := some ((if isProd then "https://" else "http://") ++ req.host ++
              mountUrl req.originalUrl req.url)
            title := some (rec.name.getD "")
            time_label := some (rec.time_label.getD "")
            description := some (rec.description.getD "")
            payload := some (JsVal.obj rec)
            styles := some (getAmpCss isProd lessCss st).1 },
        (getAmpCss isProd lessCss st).2.1, (getAmpCss isProd lessCss st).2.2) := by
  rw [dispatch_amp_eq isProd secs sessions days lessCss st req id rec hmem hpath hrest hne
    hkey hres]
  simp [jsOrEmpty_eq_getD]

theorem schedule_session_rendered_witness :
    dispatch false ["schedule"]
        (fun s => if s = "talk" then JsVal.obj ⟨some "Talk", none, some "Desc"⟩ else JsVal.undef)
        [] "css" ⟨none, none⟩
        { path := "schedule", rest := some "talk", host := "example.com",
          url := "/schedule/talk", originalUrl := some "/app/schedule/talk" } =
      (Outcome.Rendered "_amp-session"
        { year := 2018, prod := false, base := "/app", layout := "amp",
          ua := "UA-41980257-1", conversion := 935743779, sourcePre := "src",
          days := [], sitePre := some "http://example.com/app",
          title := some "Talk", time_label := some "", description := some "Desc",
          payload := some (JsVal.obj ⟨some "Talk", none, some "Desc"⟩),
          styles := some "css" },
        ⟨none, none⟩, true) :=
  schedule_session_rendered false ["schedule"]
    (fun s => if s = "talk" then JsVal.obj ⟨some "Talk", none, some "Desc"⟩ else JsVal.undef)
    [] "css" ⟨none, none⟩
    { path := "schedule", rest := some "talk", host := "example.com",
      url := "/schedule/talk", originalUrl := some "/app/schedule/talk" }
    "talk" ⟨some "Talk", none, some "Desc"⟩
    (by decide) rfl rfl (by decide) (by decide) (by decide)

/-- C2: a request for `/schedule/<id>` whose identifier is absent from the
sessions mapping or starts with `_` makes the dispatcher defer to the next
handler: the outcome is `Deferred`, nothing is rendered, the cache state is
untouched and no session record reaches any render context. -/
theorem schedule_unknown_or_reserved_deferred (isProd : Bool) (secs : List String)
    (sessions : String → JsVal) (days : List String) (lessCss : String)
    (st : CssState) (req : Request) (id : String)
    (hpath : req.path = "schedule") (hrest : req.rest = some id) (hne : id ≠ "")
    (h : sessions id = JsVal.undef ∨ jsStartsWith id "_" = true) :
    dispatch isProd secs sessions days lessCss st req = (Outcome.Deferred, st, false) := by
  by_cases hmem : req.path ∈ secs
  · rcases h with h | h
    · simp [dispatch, hmem, hpath, hrest, restVal, hne, h, JsVal.truthy]
    · simp [dispatch, hmem, hpath, hrest, restVal, hne, h]
  · simp [dispatch, hmem]

theorem schedule_unknown_or_reserved_deferred_witness :
    dispatch false ["schedule"] (fun _ => JsVal.undef) [] "css" ⟨none, none⟩
        { path := "schedule", rest := some "nope", host := "example.com",
          url := "/schedule/nope", originalUrl := some "/schedule/nope" } =
      (Outcome.Deferred, ⟨none, none⟩, false) ∧
    dispatch false ["schedule"]
        (fun s => if s = "_secret" then JsVal.obj ⟨some "S", none, none⟩ else JsVal.undef)
        [] "css" ⟨none, none⟩
        { path := "schedule", rest := some "_secret", host := "example.com",
          url := "/schedule/_secret", originalUrl := some "/schedule/_secret" } =
      (Outcome.Deferred, ⟨none, none⟩, false) :=
  ⟨schedule_unknown_or_reserved_deferred false ["schedule"] (fun _ => JsVal.undef) [] "css"
      ⟨none, none⟩ _ "nope" rfl rfl (by decide) (Or.inl rfl),
    schedule_unknown_or_reserved_deferred false ["schedule"]
      (fun s => if s = "_secret" then JsVal.obj ⟨some "S", none, none⟩ else JsVal.undef) [] "css"
      ⟨none, none⟩ _ "_secret" rfl rfl (by decide) (Or.inr (by decide))⟩

/-- C5: a request for `/S` with no sub-path, where `S` is a registered
section name (including `S = schedule`), reaches the `Rendered` outcome,
rendering template `S` with the base context, whose layout field is the
standard `devsummit` layout. -/
theorem section_request_rendered (isProd : Bool) (secs : List String)
    (sessions : String → JsVal) (days : List String) (lessCss : String)
    (st : CssState) (req : Request)
    (hmem : secs.contains req.path = true)
    (hrest : req.rest = none ∨ req.rest = some "") :
    dispatch isProd secs sessions days lessCss st req =
      (Outcome.Rendered req.path
          (baseScope isProd days (mountUrl req.originalUrl req.url)), st, false) ∧
    (baseScope isProd days (mountUrl req.originalUrl req.url)).layout = "devsummit" := by
  constructor
  · have hx : req.path ∈ secs := by simpa using hmem
    rcases hrest with h | h <;> simp [dispatch, hx, h, restVal]
  · rfl

theorem section_request_rendered_witness :
    dispatch false ["about", "schedule"] (fun _ => JsVal.undef) [] "css" ⟨none, none⟩
        { path := "schedule", rest := none, host := "example.com",
          url := "/schedule", originalUrl := some "/schedule" } =
      (Outcome.Rendered "schedule" (baseScope false [] (mountUrl (some "/schedule") "/schedule")),
        ⟨none, none⟩, false) ∧
    (baseScope false [] (mountUrl (some "/schedule") "/schedule")).layout = "devsummit" :=
  section_request_rendered false ["about", "schedule"] (fun _ => JsVal.undef) [] "css"
    ⟨none, none⟩
    { path := "schedule", rest := none, host := "example.com",
      url := "/schedule", originalUrl := some "/schedule" }
    (by decide) (Or.inl rfl)

/-- C7: a request whose matched section is not `schedule` but which carries
a non-empty sub-path segment is deferred to the next handler and never
rendered. -/
theorem nonschedule_subpath_deferred (isProd : Bool) (secs : List String)
    (sessions : String → JsVal) (days : List String) (lessCss : String)
    (st : CssState) (req : Request) (r : String)
    (hmem : secs.contains req.path = true) (hns : req.path ≠ "schedule")
    (hrest : req.rest = some r) (hne : r ≠ "") :
    dispatch isProd secs sessions days lessCss st req = (Outcome.Deferred, st, false) := by
  have hx : req.path ∈ secs := by simpa using hmem
  simp [dispatch, hx, hrest, restVal, hne, hns]

theorem nonschedule_subpath_deferred_witness :
    dispatch false ["about", "schedule"] (fun _ => JsVal.undef) [] "css" ⟨none, none⟩
        { path := "about", rest := some "team", host := "example.com",
          url := "/about/team", originalUrl := some "/about/team" } =
      (Outcome.Deferred, ⟨none, none⟩, false) :=
  nonschedule_subpath_deferred false ["about", "schedule"] (fun _ => JsVal.undef) [] "css"
    ⟨none, none⟩
    { path := "about", rest := some "team", host := "example.com",
      url := "/about/team", originalUrl := some "/about/team" } "team"
    (by decide) (by decide) rfl (by decide)

/-- C10: a request for `/schedule/<id>` whose identifier is a key of the
sessions mapping holding a falsy value (such as `null`, `0` or the empty
string) is treated exactly like an absent key: the dispatcher defers to the
next handler, because presence is tested by the truthiness of the
looked-up record. -/
theorem falsy_session_deferred (isProd : Bool) (secs : List String)
    (sessions : String → JsVal) (days : List String) (lessCss : String)
    (st : CssState) (req : Request) (id : String)
    (hpath : req.path = "schedule") (hrest : req.rest = some id) (hne : id ≠ "")
    (hfalsy : (sessions id).truthy = false) :
    dispatch isProd secs sessions days lessCss st req = (Outcome.Deferred, st, false) ∧
    dispatch isProd secs (fun s => if s = id then JsVal.undef else sessions s)
        days lessCss st req =
      dispatch isProd secs sessions days lessCss st req := by
  have h1 : dispatch isProd secs sessions days lessCss st req =
      (Outcome.Deferred, st, false) := by
    by_cases hmem : req.path ∈ secs
    · simp [dispatch, hmem, hpath, hrest, restVal, hne, hfalsy]
    · simp [dispatch, hmem]
  have h2 : dispatch isProd secs (fun s => if s = id then JsVal.undef else sessions s)
      days lessCss st req = (Outcome.Deferred, st, false) := by
    by_cases hmem : req.path ∈ secs
    · simp [dispatch, hmem, hpath, hrest, restVal, hne, JsVal.truthy]
    · simp [dispatch, hmem]
  exact ⟨h1, h2.trans h1.symm⟩

theorem falsy_session_deferred_witness :
    dispatch false ["schedule"] (fun s => if s = "null-session" then JsVal.nullv else JsVal.undef)
        [] "css" ⟨none, none⟩
        { path := "schedule", rest := some "null-session", host := "example.com",
          url := "/schedule/null-session", originalUrl := some "/schedule/null-session" } =
      (Outcome.Deferred, ⟨none, none⟩, false) :=
  (falsy_session_deferred false ["schedule"]
    (fun s => if s = "null-session" then JsVal.nullv else JsVal.undef) [] "css"
    ⟨none, none⟩
    { path := "schedule", rest := some "null-session", host := "example.com",
      url := "/schedule/null-session", originalUrl := some "/schedule/null-session" }
    "null-session" rfl rfl (by decide) (by decide)).1

theorem getAmpCss_filled (isProd : Bool) (lessCss : String) (st : CssState)
    (h : st.prodAmpCss.isSome ∨ st.fallbackProdAmpCss.isSome) :
    (getAmpCss isProd lessCss st).2.1 = st ∧ (getAmpCss isProd lessCss st).2.2 = false := by
  cases hp : st.prodAmpCss with
  | some c => simp [getAmpCss, hp]
  | none =>
    cases hf : st.fallbackProdAmpCss with
    | some c => simp [getAmpCss, hp, hf]
    | none => rw [hp, hf] at h; simp at h

theorem runAmpCalls_filled (isProd : Bool) (lessCss : String) (n : Nat) (st : CssState)
    (h : st.prodAmpCss.isSome ∨ st.fallbackProdAmpCss.isSome) :
    runAmpCalls isProd lessCss n st = (st, 0) := by
  induction n with
  | zero => rfl
  | succ n ih =>
    obtain ⟨h1, h2⟩ := getAmpCss_filled isProd lessCss st h
    simp [runAmpCalls, h1, h2, ih]

/-- C4: over any sequence of AMP-CSS lookups, in production with the eager
precompiled artifact present the preprocessor is never invoked and the
cache cells never change; in production with the artifact absent the first
lookup invokes the preprocessor and stores its output in the lazy fallback
cell, and the whole sequence performs exactly one invocation, with later
lookups reusing the stored value without invoking again; in non-production
nothing is ever stored and every lookup invokes the preprocessor. -/
theorem ampCssCache_spec (lessCss c : String) (a f : Option String) (n : Nat) :
    runAmpCalls true lessCss n ⟨some c, f⟩ = (⟨some c, f⟩, 0) ∧
    (1 ≤ n → runAmpCalls true lessCss n (initState true none) =
      (⟨none, some lessCss⟩, 1)) ∧
    getAmpCss true lessCss ⟨none, some lessCss⟩ = (lessCss, ⟨none, some lessCss⟩, false) ∧
    runAmpCalls false lessCss n (initState false a) = (initState false a, n) := by
  refine ⟨runAmpCalls_filled true lessCss n ⟨some c, f⟩ (Or.inl rfl), ?_, rfl, ?_⟩
  · intro hn
    obtain ⟨m, rfl⟩ : ∃ m, n = m + 1 := ⟨n - 1, by omega⟩
    have hfirst : getAmpCss true lessCss (initState true none) =
        (lessCss, ⟨none, some lessCss⟩, true) := rfl
    simp [runAmpCalls, hfirst,
      runAmpCalls_filled true lessCss m ⟨none, some lessCss⟩ (Or.inr rfl)]
  · induction n with
    | zero => rfl
    | succ n ih =>
      have hstep : getAmpCss false lessCss (initState false a) =
          (lessCss, initState false a, true) := rfl
      simp [runAmpCalls, hstep, ih]
      omega

theorem ampCssCache_spec_witness :
    runAmpCalls true "x" 3 (initState true none) =
      ({ prodAmpCss := none, fallbackProdAmpCss := some "x" }, 1) ∧
    runAmpCalls false "x" 3 (initState false none) = (initState false none, 3) :=
  ⟨(ampCssCache_spec "x" "c" none none 3).2.1 (by decide),
    (ampCssCache_spec "x" "c" none none 3).2.2.2⟩

/-- C8: a failed read of the precompiled AMP CSS artifact at production
startup is swallowed: `readProdAmpCss` returns `undefined` instead of
propagating the error, and an AMP request served from the resulting startup
state falls back to lazily invoking the preprocessor and still renders. -/
theorem prodAmpCss_read_failure_swallowed (e : String) (secs : List String)
    (sessions : String → JsVal) (days : List String) (lessCss : String)
    (req : Request) (id : String) (rec : SessionRecord)
    (hmem : secs.contains "schedule" = true) (hpath : req.path = "schedule")
    (hrest : req.rest = some id) (hne : id ≠ "")
    (hkey : sessions id = JsVal.obj rec) (hres : jsStartsWith id "_" = false) :
    readProdAmpCss (Except.error e) = none ∧
    (dispatch true secs sessions days lessCss
        (initState true (readProdAmpCss (Except.error e))) req).2.2 = true ∧
    ∃ scope, (dispatch true secs sessions days lessCss
        (initState true (readProdAmpCss (Except.error e))) req).1 =
      Outcome.Rendered "_amp-session" scope ∧ scope.styles = some lessCss := by
  refine ⟨rfl, ?_, ?_⟩
  · rw [dispatch_amp_eq true secs sessions days lessCss
      (initState true (readProdAmpCss (Except.error e))) req id rec hmem hpath hrest hne
      hkey hres]
    rfl
  · rw [dispatch_amp_eq true secs sessions days lessCss
      (initState true (readProdAmpCss (Except.error e))) req id rec hmem hpath hrest hne
      hkey hres]
    exact ⟨_, rfl, rfl⟩

theorem prodAmpCss_read_failure_swallowed_witness :
    readProdAmpCss (Except.error "ENOENT") = none ∧
    (dispatch true ["schedule"]
        (fun s => if s = "talk" then JsVal.obj ⟨some "Talk", none, none⟩ else JsVal.undef)
        [] "css" (initState true (readProdAmpCss (Except.error "ENOENT")))
        { path := "schedule", rest := some "talk", host := "example.com",
          url := "/schedule/talk", originalUrl := some "/schedule/talk" }).2.2 = true ∧
    ∃ scope, (dispatch true ["schedule"]
        (fun s => if s = "talk" then JsVal.obj ⟨some "Talk", none, none⟩ else JsVal.undef)
        [] "css" (initState true (readProdAmpCss (Except.error "ENOENT")))
        { path := "schedule", rest := some "talk", host := "example.com",
          url := "/schedule/talk", originalUrl := some "/schedule/talk" }).1 =
      Outcome.Rendered "_amp-session" scope ∧ scope.styles = some "css" :=
  prodAmpCss_read_failure_swallowed "ENOENT" ["schedule"]
    (fun s => if s = "talk" then JsVal.obj ⟨some "Talk", none, none⟩ else JsVal.undef)
    [] "css"
    { path := "schedule", rest := some "talk", host := "example.com",
      url := "/schedule/talk", originalUrl := some "/schedule/talk" }
    "talk" ⟨some "Talk", none, none⟩
    (by decide) rfl rfl (by decide) (by decide) (by decide)

theorem getAmpCss_css_stable (isProd : Bool) (lessCss : String) (st : CssState) :
    (getAmpCss isProd lessCss (getAmpCss isProd lessCss st).2.1).1 =
      (getAmpCss isProd lessCss st).1 := by
  cases hp : st.prodAmpCss with
  | some c => simp [getAmpCss, hp]
  | none =>
    cases hf : st.fallbackProdAmpCss with
    | some c => simp [getAmpCss, hp, hf]
    | none =>
      cases isProd with
      | true => simp [getAmpCss, hp, hf]
      | false => simp [getAmpCss, hp, hf]

/-- C9: the dispatcher is idempotent across repeated identical requests:
with the same request data and registry/schedule environment, the outcome
(and in particular the whole render context) of a second identical request,
issued against the cache state left behind by the first, is structurally
identical to the outcome of the first request. -/
theorem dispatch_idempotent (isProd : Bool) (secs : List String)
    (sessions : String → JsVal) (days : List String) (lessCss : String)
    (st : CssState) (req : Request) :
    (dispatch isProd secs sessions days lessCss
        (dispatch isProd secs sessions days lessCss st req).2.1 req).1 =
      (dispatch isProd secs sessions days lessCss st req).1 := by
  by_cases hmem : req.path ∈ secs
  · cases hr : restVal req.rest with
    | none => simp [dispatch, hmem, hr]
    | some r =>
      by_cases hs : req.path = "schedule"
      · by_cases ht : (sessions r).truthy = true
        · by_cases hw : jsStartsWith r "_" = true
          · simp [dispatch, hmem, hr, hs, hw]
          · have hw' : jsStartsWith r "_" = false := by simpa using hw
            have hmem2 : "schedule" ∈ secs := hs ▸ hmem
            simp [dispatch, hmem, hmem2, hr, hs, ht, hw', getAmpCss_css_stable]
        · have ht' : (sessions r).truthy = false := by simpa using ht
          simp [dispatch, hmem, hr, hs, ht']
      · simp [dispatch, hmem, hr, hs]
  · simp [dispatch, hmem]

theorem filterMap_ext {α β : Type} (f g : α → Option β) (h : ∀ a, f a = g a)
    (l : List α) : l.filterMap f = l.filterMap g := by
  induction l with
  | nil => rfl
  | cons a l ih => rw [List.filterMap_cons, List.filterMap_cons, h a, ih]

theorem sections_eq_filterMap (entries : List String) :
    sections entries = entries.filterMap (fun s =>
      match (if jsEndsWith s ".html" && jsFirstChar s != some '_' then
          some (jsTake s (s.toList.length - 5))
        else none) with
      | some t => if t = "" then none else some t
      | none => none) := by
  rw [sections, List.filterMap_map]
  rfl

theorem sections_entry_eq (s : String) :
    (match (if jsEndsWith s ".html" && jsFirstChar s != some '_' then
        some (jsTake s (s.toList.length - 5))
      else none) with
      | some t => if t = "" then none else some t
      | none => none) =
    (if jsEndsWith s ".html" && jsFirstChar s != some '_' &&
        jsTake s (s.toList.length - 5) != "" then
      some (jsTake s (s.toList.length - 5))
    else none) := by
  set t := jsTake s (s.toList.length - 5) with hT
  by_cases h1 : jsEndsWith s ".html" = true
  · by_cases h2 : jsFirstChar s = some '_'
    · simp [h1, h2]
    · by_cases h3 : t = ""
      · simp [h1, h2, h3]
      · simp [h1, h2, h3]
  · have h1' : jsEndsWith s ".html" = false := by simpa using h1
    simp [h1']

/-- C6 (counterexample): the claim predicts that the directory entry named
exactly `.html` (which ends in the content extension and whose first
character is not `_`) is registered with its stripped name, the empty
string; the code instead drops it, so the registry differs from the
claimed one. -/
theorem sections_spec_counterexample :
    sectionsSpec [".html"] = [""] ∧ sections [".html"] = [] ∧
    ¬ sections [".html"] = sectionsSpec [".html"] := by decide

/-- C6 (amended): the section registry contains exactly the directory
entries that end in `.html`, whose first character is not `_`, and whose
name with the extension stripped is nonempty, each with the extension
stripped; every other entry is silently dropped, and an entry beginning
with `_` contributes no section even when it is a matching content file. -/
theorem sections_amended_spec :
    (∀ entries, sections entries = sectionsAmended entries) ∧
    (∀ (s : String) (entries : List String), jsFirstChar s = some '_' →
      sections (s :: entries) = sections entries) := by
  constructor
  · intro entries
    exact (sections_eq_filterMap entries).trans
      (filterMap_ext _ _ sections_entry_eq entries)
  · intro s entries h
    rw [sections_eq_filterMap, sections_eq_filterMap, List.filterMap_cons]
    simp [h]

theorem sections_amended_spec_witness :
    sections ["_x.html", "about.html"] = sections ["about.html"] ∧
    sections ["about.html", ".html", "_y.html", "readme.txt"] =
      sectionsAmended ["about.html", ".html", "_y.html", "readme.txt"] :=
  ⟨sections_amended_spec.2 "_x.html" ["about.html"] (by decide),
    sections_amended_spec.1 ["about.html", ".html", "_y.html", "readme.txt"]⟩
